import Mathlib

/-!
Shallow embedding of the contact-book core of `src/main.py`: validated
field types (`Phone`, `Birthday`), `Record` phone/birthday operations and
the `AddressBook` collection with its upcoming-birthday query.

Strings are modelled at the code-point level (`String` / `List Char`),
matching Python `str` for the ASCII inputs the program is about.  A Python
operation that can raise is modelled as a function returning the new state
together with an optional error message (the state component is whatever
mutations happened before the raise), or as an `Option` result for pure
constructions.
-/

namespace Hw

/-- Gregorian leap-year rule, as used by Python's `datetime` module. -/
def isLeap (y : Nat) : Bool :=
  y % 4 == 0 && (y % 100 != 0 || y % 400 == 0)

/-- Length of a month, as enforced by `datetime.date`. -/
def daysInMonth (y m : Nat) : Nat :=
  if m = 2 then (if isLeap y then 29 else 28)
  else if m = 4 ∨ m = 6 ∨ m = 9 ∨ m = 11 then 30
  else 31

/-- A calendar date, the payload of Python's `datetime.date`. -/
structure Date where
  year : Nat
  month : Nat
  day : Nat
deriving DecidableEq, Repr

/-- The constraint `datetime.date(y, m, d)` enforces at construction:
MINYEAR 1, MAXYEAR 9999, month in range, day within the month. -/
def validDate (d : Date) : Bool :=
  Nat.ble 1 d.year && Nat.ble d.year 9999 &&
  Nat.ble 1 d.month && Nat.ble d.month 12 &&
  Nat.ble 1 d.day && Nat.ble d.day (daysInMonth d.year d.month)

/-- Python `date` comparison: lexicographic on (year, month, day). -/
def dateLE (a b : Date) : Bool :=
  Nat.blt a.year b.year ||
  (a.year == b.year &&
    (Nat.blt a.month b.month ||
      (a.month == b.month && Nat.ble a.day b.day)))

/-- The calendar successor of a date (used to model `timedelta` addition). -/
def nextDay (d : Date) : Date :=
  if d.day < daysInMonth d.year d.month then ⟨d.year, d.month, d.day + 1⟩
  else if d.month < 12 then ⟨d.year, d.month + 1, 1⟩
  else ⟨d.year + 1, 1, 1⟩

/-- Proleptic calendar stepping, unbounded: helper used to detect where
Python's bounded date addition overflows.  It rolls past 9999-12-31 into
year 10000; Python itself never produces such a date (see
`addDaysChecked`). -/
def addDays : Date → Nat → Date
  | d, 0 => d
  | d, n + 1 => addDays (nextDay d) n

/-- Python date addition `d + timedelta(days = n)`: the result must stay
within the calendar (`date.max` is 9999-12-31), otherwise the addition
raises `OverflowError`, modelled as `none`.  For a valid start date the
unbounded `addDays` lands past year 9999 exactly when Python raises. -/
def addDaysChecked (d : Date) (n : Nat) : Option Date :=
  if Nat.ble (addDays d n).year 9999 then some (addDays d n) else none

/-- Python `date.replace` with a new year: rebuilds the date, raising
`ValueError` (modelled as `none`) when the stored day is out of range for
the stored month in the new year — which, for a date that was valid in its
own year, happens exactly for Feb 29 mapped into a non-leap year. -/
def replaceYear (d : Date) (y : Nat) : Option Date :=
  if Nat.ble d.day (daysInMonth y d.month) then some ⟨y, d.month, d.day⟩ else none

/-- ASCII decimal digit, the regex class `\d` of `re` on ASCII text.
(CPython's `\d` additionally matches non-ASCII Unicode decimal digits;
the development is stated for ASCII input, the program's domain.) -/
def isDig (c : Char) : Bool :=
  Nat.ble 48 c.toNat && Nat.ble c.toNat 57

/-- Numeric value of a digit character. -/
def charVal (c : Char) : Nat := c.toNat - 48

/-- Model of `re.match` for the pattern `^\d+$` from `Phone.validate_number`:
one or more digits spanning the whole string, where `$` also matches just
before a single trailing newline (Python `$` semantics). -/
def digitsMatch (l : List Char) : Bool :=
  (!l.isEmpty && l.all isDig) ||
  (Nat.ble 2 l.length && l.dropLast.all isDig && l.getLast? == some '\n')

/-- Validation `Phone.validate_number` from the source: length exactly 10 and the
regex match above. -/
def validate_number (s : String) : Bool :=
  s.data.length == 10 && digitsMatch s.data

/-- Construction `Phone(number)`: returns the stored value, `none` models the
`ValueError("Invalid phone number")`. -/
def mkPhone (s : String) : Option String :=
  if validate_number s then some s else none

/-- Split a character list at its first dot: the regex literal `.` of the
format `%d.%m.%Y` consumes exactly the first dot, since no field pattern
can contain one. -/
def breakDot : List Char → Option (List Char × List Char)
  | [] => none
  | c :: cs =>
    if c = '.' then some ([], cs)
    else (breakDot cs).map (fun p => (c :: p.1, p.2))

/-- A digit 1-9 (the regex alternative `[1-9]`). -/
def isDig19 (c : Char) : Bool := isDig c && c != '0'

/-- The `%d` field of CPython `_strptime`: regex
`3[01]|[12]\d|0[1-9]|[1-9]| [1-9]` — a two-digit day 01..31, a single
digit 1..9, or a space followed by a digit 1..9 — applied to the whole
field (the text before the dot). -/
def parseDay : List Char → Option Nat
  | [c] => if isDig19 c then some (charVal c) else none
  | [c₁, c₂] =>
    if c₁ = ' ' then (if isDig19 c₂ then some (charVal c₂) else none)
    else
      if isDig c₁ && isDig c₂ &&
          Nat.ble 1 (10 * charVal c₁ + charVal c₂) &&
          Nat.ble (10 * charVal c₁ + charVal c₂) 31 then
        some (10 * charVal c₁ + charVal c₂)
      else none
  | _ => none

/-- The `%m` field of CPython `_strptime`: regex `1[0-2]|0[1-9]|[1-9]` —
a two-digit month 01..12 or a single digit 1..9 (no space form). -/
def parseMonth : List Char → Option Nat
  | [c] => if isDig19 c then some (charVal c) else none
  | [c₁, c₂] =>
    if isDig c₁ && isDig c₂ &&
        Nat.ble 1 (10 * charVal c₁ + charVal c₂) &&
        Nat.ble (10 * charVal c₁ + charVal c₂) 12 then
      some (10 * charVal c₁ + charVal c₂)
    else none
  | _ => none

/-- The `%Y` field of CPython `_strptime`: exactly four digits. -/
def parseYear : List Char → Option Nat
  | [a, b, c, d] =>
    if isDig a && isDig b && isDig c && isDig d then
      some (1000 * charVal a + 100 * charVal b + 10 * charVal c + charVal d)
    else none
  | _ => none

/-- Parsing `datetime.strptime(value, %d.%m.%Y).date()` on a character list:
split at the two literal dots, parse the three fields, then the
`datetime.date` constructor check (year at least MINYEAR 1; the day must
exist in the parsed month of the parsed year).  `none` models the
`ValueError` that `Birthday.__init__` converts into its own. -/
def parseBirthdayChars (l : List Char) : Option Date :=
  match breakDot l with
  | none => none
  | some (dp, r₁) =>
    match breakDot r₁ with
    | none => none
    | some (mp, yp) =>
      match parseDay dp, parseMonth mp, parseYear yp with
      | some d, some m, some y =>
        if Nat.ble 1 y && Nat.ble d (daysInMonth y m) then some ⟨y, m, d⟩
        else none
      | _, _, _ => none

/-- Construction `Birthday(value)`: the stored `date`, or `none` for the
`ValueError("Invalid date format. Use DD.MM.YYYY")`. -/
def parseBirthday (s : String) : Option Date :=
  parseBirthdayChars s.data

/-- Two-digit zero-padded decimal (strftime `%d` / `%m`; the argument is
at most 99 for any valid day or month). -/
def pad2 (n : Nat) : List Char :=
  [Nat.digitChar (n / 10 % 10), Nat.digitChar (n % 10)]

/-- Platform strftime `%Y`: the year as an unpadded decimal number (the
glibc behaviour CPython's `date.strftime` delegates to, so year 90 prints
as `90`, not `0090`).  A `datetime` year is always between 1 and 9999,
hence at most four digits; the final branch covers that whole range. -/
def fmtYear (y : Nat) : List Char :=
  if y < 10 then [Nat.digitChar y]
  else if y < 100 then [Nat.digitChar (y / 10), Nat.digitChar (y % 10)]
  else if y < 1000 then
    [Nat.digitChar (y / 100), Nat.digitChar (y / 10 % 10), Nat.digitChar (y % 10)]
  else
    [Nat.digitChar (y / 1000 % 10), Nat.digitChar (y / 100 % 10),
     Nat.digitChar (y / 10 % 10), Nat.digitChar (y % 10)]

/-- Formatting `date.strftime(%d.%m.%Y)` as a character list: zero-padded
day and month, unpadded year. -/
def fmtDateChars (d : Date) : List Char :=
  pad2 d.day ++ '.' :: (pad2 d.month ++ '.' :: fmtYear d.year)

/-- Formatting `date.strftime(%d.%m.%Y)` as a string. -/
def fmtDate (d : Date) : String :=
  String.mk (fmtDateChars d)

/-- A contact record: the `Name` value (non-empty, fixed at creation), the
ordered phone sequence (each entry the value of a validated `Phone`), and
the optional `Birthday` date. -/
structure Record where
  name : String
  phones : List String
  birthday : Option Date
deriving DecidableEq, Repr

/-- Construction `Record(name)`: fails (models the `ValueError` of `Name`) on an empty
name, otherwise starts with no phones and no birthday. -/
def mkRecord (name : String) : Option Record :=
  if name.data.isEmpty then none else some ⟨name, [], none⟩

/-- Operation `Record.add_phone`: validate, then append.  The returned pair is the
record state after the call together with the raised error, if any. -/
def add_phone (r : Record) (s : String) : Record × Option String :=
  if validate_number s then ({ r with phones := r.phones ++ [s] }, none)
  else (r, some "Invalid phone number")

/-- Operation `Record.remove_phone`: validate (the `ValueError` of `Phone`
propagates before any mutation), then erase the first value-equal entry;
a silent no-op when none matches. -/
def remove_phone (r : Record) (s : String) : Record × Option String :=
  if validate_number s then ({ r with phones := r.phones.erase s }, none)
  else (r, some "Invalid phone number")

/-- Operation `Record.edit_phone`: `remove_phone` then `add_phone`; an error in
either step propagates, keeping whatever state the first step left. -/
def edit_phone (r : Record) (old new : String) : Record × Option String :=
  match remove_phone r old with
  | (r₁, some e) => (r₁, some e)
  | (r₁, none) => add_phone r₁ new

/-- Operation `Record.find_phone`: first phone whose value equals the argument;
`none` models the `ValueError("Phone number not found")`. -/
def find_phone (r : Record) (s : String) : Option String :=
  r.phones.find? (fun p => p == s)

/-- Operation `Record.add_birthday`: parse (the `ValueError` of `Birthday`
propagates before any mutation), then overwrite the stored birthday. -/
def add_birthday (r : Record) (s : String) : Record × Option String :=
  match parseBirthday s with
  | some d => ({ r with birthday := some d }, none)
  | none => (r, some "Invalid date format. Use DD.MM.YYYY")

/-- The `AddressBook`'s backing `dict`: an insertion-ordered association
list with unique keys, Python 3.7+ `dict` semantics. -/
abbrev Book := List (String × Record)

/-- Operation `AddressBook.add_record`: `self.data[record.name.value] = record` —
an existing key keeps its position and gets the new value, a new key is
appended at the end. -/
def add_record (b : Book) (r : Record) : Book :=
  if b.any (fun p => p.1 == r.name) then
    b.map (fun p => if p.1 == r.name then (p.1, r) else p)
  else b ++ [(r.name, r)]

/-- Operation `AddressBook.find`: the record stored under the key; `none` models
the `KeyError("Record not found")`. -/
def book_find (b : Book) (k : String) : Option Record :=
  (b.find? (fun p => p.1 == k)).map Prod.snd

/-- Operation `AddressBook.delete_record`: `del` the entry when present and report
success, otherwise report not-found (no error either way). -/
def delete_record (b : Book) (n : String) : Book × String :=
  if b.any (fun p => p.1 == n) then
    (b.filter (fun p => !(p.1 == n)), "Contact " ++ n ++ " deleted")
  else (b, "Contact " ++ n ++ " not found")

/-- The loop body of `AddressBook.get_upcoming_birthdays` over the
record sequence (`self.data.values()` in insertion order): skip records
without a birthday; for the rest, `replace` the year with today's
(`none` — the un-caught `ValueError` — aborts the whole call), then the
chained comparison `today <= next_birthday <= today + timedelta(days=7)`:
its right operand is evaluated only when the left comparison holds, so
the addition's possible `OverflowError` (also un-caught, aborting the
call) is raised exactly when some candidate is on or after today.  The
addition's outcome `lc` (`addDaysChecked today 7`, a pure value) is
passed in as a parameter; its `none` check sits inside the left-hand
branch, reproducing the source's evaluation order. -/
def upcomingAux (today : Date) (lc : Option Date) :
    List Record → Option (List (String × String))
  | [] => some []
  | r :: rs =>
    match r.birthday with
    | none => upcomingAux today lc rs
    | some bd =>
      match replaceYear bd today.year with
      | none => none
      | some nb =>
        if dateLE today nb then
          match lc with
          | none => none
          | some lim =>
            if dateLE nb lim then
              (upcomingAux today lc rs).map (fun l => (r.name, fmtDate nb) :: l)
            else upcomingAux today lc rs
        else upcomingAux today lc rs

/-- Query `AddressBook.get_upcoming_birthdays`, with `today` injected (the
source reads the system clock for it). -/
def get_upcoming_birthdays (b : Book) (today : Date) : Option (List (String × String)) :=
  upcomingAux today (addDaysChecked today 7) (b.map Prod.snd)

/-- Spec-side view of one record in the birthday query: the (name,
candidate) pair when the record has a birthday whose candidate date falls
in the window, nothing otherwise. -/
def upcomingEntry (today : Date) (lc : Option Date) (r : Record) :
    Option (String × String) :=
  match r.birthday with
  | none => none
  | some bd =>
    match replaceYear bd today.year with
    | none => none
    | some nb =>
      if dateLE today nb then
        match lc with
        | none => none
        | some lim => if dateLE nb lim then some (r.name, fmtDate nb) else none
      else none

/-- Spec-side description of the birthday query: a filter-map over the
book's records in insertion order. -/
def upcomingSpec (b : Book) (today : Date) : List (String × String) :=
  (b.map Prod.snd).filterMap (upcomingEntry today (addDaysChecked today 7))

/-- Whether a record's stored birthday survives `date.replace` into
today's year (false exactly for a Feb 29 birthday in a non-leap year). -/
def birthdayOk (today : Date) (r : Record) : Bool :=
  match r.birthday with
  | none => true
  | some bd => (replaceYear bd today.year).isSome

/-- Update the record stored under a key (a record fetched from the
`dict` and mutated in place, as the command handlers do). -/
def updBook (b : Book) (k : String) (f : Record → Record) : Book :=
  b.map (fun p => if p.1 == k then (p.1, f p.2) else p)

/-- The book states reachable from the empty book through the core
operations: insertion, deletion, and the in-place record mutations. -/
inductive Reachable : Book → Prop
  | empty : Reachable []
  | add (b : Book) (r : Record) : Reachable b → Reachable (add_record b r)
  | del (b : Book) (n : String) : Reachable b → Reachable (delete_record b n).1
  | addPh (b : Book) (k s : String) : Reachable b →
      Reachable (updBook b k (fun r => (add_phone r s).1))
  | rmPh (b : Book) (k s : String) : Reachable b →
      Reachable (updBook b k (fun r => (remove_phone r s).1))
  | edPh (b : Book) (k old new : String) : Reachable b →
      Reachable (updBook b k (fun r => (edit_phone r old new).1))
  | setBd (b : Book) (k s : String) : Reachable b →
      Reachable (updBook b k (fun r => (add_birthday r s).1))

/-- A `find?` with a value-equality predicate returns the sought value
itself when present, `none` otherwise. -/
theorem find_beq_eq (l : List String) (s : String) :
    l.find? (fun p => p == s) = if s ∈ l then some s else none := by
  induction l with
  | nil => simp
  | cons a as ih =>
    by_cases h : a = s
    · subst h
      rw [List.find?_cons_of_pos _ (by simp)]
      simp
    · have hb : (a == s) = false := beq_eq_false_iff_ne.mpr h
      rw [List.find?_cons_of_neg _ (by simp [hb]), ih]
      simp [Ne.symm h]

/-- C10: calling `add_phone` with an invalid phone string, or
`add_birthday` with an invalid date string, raises and leaves the record
exactly as it was — validation precedes any mutation. -/
theorem add_ops_atomic_on_failure (r : Record) (s t : String) :
    (validate_number s = false → add_phone r s = (r, some "Invalid phone number")) ∧
    (parseBirthday t = none → add_birthday r t = (r, some "Invalid date format. Use DD.MM.YYYY")) := by
  constructor
  · intro h
    simp [add_phone, h]
  · intro h
    simp [add_birthday, h]

/-- Witness for `add_ops_atomic_on_failure` at a record with one phone and
a set birthday, an invalid phone string and an invalid date string. -/
theorem add_ops_atomic_on_failure_witness :
    validate_number "123" = false ∧ parseBirthday "31.02.2000" = none ∧
    add_phone ⟨"Mia", ["0123456789"], some ⟨1990, 1, 1⟩⟩ "123" =
      (⟨"Mia", ["0123456789"], some ⟨1990, 1, 1⟩⟩, some "Invalid phone number") ∧
    add_birthday ⟨"Mia", ["0123456789"], some ⟨1990, 1, 1⟩⟩ "31.02.2000" =
      (⟨"Mia", ["0123456789"], some ⟨1990, 1, 1⟩⟩, some "Invalid date format. Use DD.MM.YYYY") :=
  ⟨by decide, by decide,
    (add_ops_atomic_on_failure ⟨"Mia", ["0123456789"], some ⟨1990, 1, 1⟩⟩ "123" "31.02.2000").1
      (by decide),
    (add_ops_atomic_on_failure ⟨"Mia", ["0123456789"], some ⟨1990, 1, 1⟩⟩ "123" "31.02.2000").2
      (by decide)⟩

/-- C2: `edit_phone` is exactly `remove_phone` followed by `add_phone`
(an error in the removal short-circuits); in particular, with a valid old
number and an invalid new one the call fails after the removal already
happened, leaving the first occurrence of the old phone removed and no
replacement added. -/
theorem edit_phone_remove_then_add (r : Record) (old new : String) :
    (edit_phone r old new =
      if (remove_phone r old).2.isSome then remove_phone r old
      else add_phone (remove_phone r old).1 new) ∧
    (validate_number old = true → validate_number new = false →
      edit_phone r old new =
        ({ r with phones := r.phones.erase old }, some "Invalid phone number")) := by
  constructor
  · rcases h : remove_phone r old with ⟨r₁, e⟩
    cases e <;> simp [edit_phone, h]
  · intro h₁ h₂
    simp [edit_phone, remove_phone, add_phone, h₁, h₂]

/-- Witness for `edit_phone_remove_then_add`: replacing a held valid phone
by an invalid string drops the old phone and adds nothing. -/
theorem edit_phone_remove_then_add_witness :
    validate_number "0123456789" = true ∧ validate_number "123" = false ∧
    edit_phone ⟨"Mia", ["0123456789"], none⟩ "0123456789" "123" =
      (⟨"Mia", [], none⟩, some "Invalid phone number") := by
  refine ⟨by decide, by decide, ?_⟩
  have h := (edit_phone_remove_then_add ⟨"Mia", ["0123456789"], none⟩ "0123456789" "123").2
    (by decide) (by decide)
  rw [h]
  decide

/-- C7: `remove_phone` with an invalid string fails before any mutation;
with a valid string it removes exactly the first value-equal entry,
keeping every other entry (later duplicates included) in order, and is a
silent no-op when no entry matches. -/
theorem remove_phone_spec (r : Record) (s : String) :
    (validate_number s = false → remove_phone r s = (r, some "Invalid phone number")) ∧
    (validate_number s = true →
      (∀ l₁ l₂, r.phones = l₁ ++ s :: l₂ → s ∉ l₁ →
        remove_phone r s = ({ r with phones := l₁ ++ l₂ }, none)) ∧
      (s ∉ r.phones → remove_phone r s = (r, none))) := by
  refine ⟨fun h => by simp [remove_phone, h], fun h => ⟨fun l₁ l₂ hsplit hnot => ?_, fun hnm => ?_⟩⟩
  · have he : r.phones.erase s = l₁ ++ l₂ := by
      rw [hsplit, List.erase_append_right _ hnot, List.erase_cons_head]
    simp [remove_phone, h, he]
  · have he : r.phones.erase s = r.phones := List.erase_of_not_mem hnm
    simp [remove_phone, h, he]

/-- Witness for `remove_phone_spec`: removing a phone held twice keeps the
second copy; removing an absent phone changes nothing. -/
theorem remove_phone_spec_witness :
    remove_phone ⟨"Mia", ["0123456789", "0123456789"], none⟩ "0123456789" =
      (⟨"Mia", ["0123456789"], none⟩, none) ∧
    remove_phone ⟨"Mia", ["0123456789"], none⟩ "9876543210" =
      (⟨"Mia", ["0123456789"], none⟩, none) := by
  constructor
  · have h := ((remove_phone_spec ⟨"Mia", ["0123456789", "0123456789"], none⟩ "0123456789").2
      (by decide)).1 [] ["0123456789"] (by decide) (by decide)
    simpa using h
  · exact ((remove_phone_spec ⟨"Mia", ["0123456789"], none⟩ "9876543210").2
      (by decide)).2 (by decide)

/-- C8: deleting a present name removes its entry (a subsequent find
fails) and reports success; deleting an absent name leaves the book
untouched and reports not-found instead of raising. -/
theorem delete_record_spec (b : Book) (n : String) :
    ((book_find b n).isSome = true →
      (delete_record b n).2 = "Contact " ++ n ++ " deleted" ∧
      book_find (delete_record b n).1 n = none) ∧
    (book_find b n = none →
      delete_record b n = (b, "Contact " ++ n ++ " not found")) := by
  constructor
  · intro h
    have hany : b.any (fun p => p.1 == n) = true := by
      rcases hf : b.find? (fun p => p.1 == n) with _ | r
      · rw [book_find, hf] at h
        simp at h
      · have hpr := List.find?_some hf
        exact List.any_eq_true.mpr ⟨r, List.mem_of_find?_eq_some hf, hpr⟩
    refine ⟨by simp [delete_record, hany], ?_⟩
    simp only [delete_record, hany, if_true, book_find]
    rw [List.find?_eq_none.mpr]
    · rfl
    · intro p hp
      simpa using (List.mem_filter.mp hp).2
  · intro h
    have hany : b.any (fun p => p.1 == n) = false := by
      rw [Bool.eq_false_iff]
      intro hc
      rcases List.any_eq_true.mp hc with ⟨p, hp, hpn⟩
      have : b.find? (fun p => p.1 == n) = none := by simpa [book_find] using h
      exact absurd (List.find?_eq_none.mp this p hp) (by simp [hpn])
    simp [delete_record, hany]

/-- Witness for `delete_record_spec`: a one-entry book, deleting the
present name and then an absent one. -/
theorem delete_record_spec_witness :
    (delete_record [("Mia", ⟨"Mia", [], none⟩)] "Mia").2 = "Contact Mia deleted" ∧
    book_find (delete_record [("Mia", ⟨"Mia", [], none⟩)] "Mia").1 "Mia" = none ∧
    delete_record [("Mia", ⟨"Mia", [], none⟩)] "Ann" =
      ([("Mia", ⟨"Mia", [], none⟩)], "Contact Ann not found") := by
  have h₁ := (delete_record_spec [("Mia", ⟨"Mia", [], none⟩)] "Mia").1 (by decide)
  have h₂ := (delete_record_spec [("Mia", ⟨"Mia", [], none⟩)] "Ann").2 (by decide)
  exact ⟨h₁.1, h₁.2, h₂⟩

/-- C6 counterexample: a record holding the old phone twice still finds
the old number after `edit_phone`, because only the first occurrence is
removed — the claim fails as universally stated. -/
theorem edit_phone_duplicate_old_remains :
    validate_number "9876543210" = true ∧
    "0123456789" ∈ (⟨"Mia", ["0123456789", "0123456789"], none⟩ : Record).phones ∧
    find_phone
      (edit_phone ⟨"Mia", ["0123456789", "0123456789"], none⟩ "0123456789" "9876543210").1
      "0123456789" = some "0123456789" := by
  decide

/-- C6 (amended): when the record holds exactly one occurrence of a valid
old number and the new number is valid and different, after `edit_phone`
the new number is found and the old one is not. -/
theorem edit_phone_find_old_new (r : Record) (old new : String)
    (hold : validate_number old = true) (hnew : validate_number new = true)
    (hcount : r.phones.count old = 1) (hne : old ≠ new) :
    find_phone (edit_phone r old new).1 new = some new ∧
    find_phone (edit_phone r old new).1 old = none := by
  have hedit : (edit_phone r old new).1 = { r with phones := r.phones.erase old ++ [new] } := by
    simp [edit_phone, remove_phone, add_phone, hold, hnew]
  rw [hedit]
  have hnotold : old ∉ r.phones.erase old := by
    have hc := List.count_erase_self old r.phones
    rw [hcount] at hc
    exact List.count_eq_zero.mp hc
  have hmem : new ∈ r.phones.erase old ++ [new] :=
    List.mem_append.mpr (Or.inr (List.mem_singleton.mpr rfl))
  have hnmem : old ∉ r.phones.erase old ++ [new] := by
    intro hm
    rcases List.mem_append.mp hm with hm₁ | hm₂
    · exact hnotold hm₁
    · exact hne (List.mem_singleton.mp hm₂)
  constructor
  · unfold find_phone
    rw [show ({ r with phones := r.phones.erase old ++ [new] } : Record).phones =
      r.phones.erase old ++ [new] from rfl, find_beq_eq, if_pos hmem]
  · unfold find_phone
    rw [show ({ r with phones := r.phones.erase old ++ [new] } : Record).phones =
      r.phones.erase old ++ [new] from rfl, find_beq_eq, if_neg hnmem]

/-- Witness for `edit_phone_find_old_new` on a one-phone record. -/
theorem edit_phone_find_old_new_witness :
    find_phone (edit_phone ⟨"Mia", ["0123456789"], none⟩ "0123456789" "9876543210").1
      "9876543210" = some "9876543210" ∧
    find_phone (edit_phone ⟨"Mia", ["0123456789"], none⟩ "0123456789" "9876543210").1
      "0123456789" = none :=
  edit_phone_find_old_new ⟨"Mia", ["0123456789"], none⟩ "0123456789" "9876543210"
    (by decide) (by decide) (by decide) (by decide)

/-- Operation `add_phone` never changes the stored name. -/
theorem add_phone_name (r : Record) (s : String) : (add_phone r s).1.name = r.name := by
  unfold add_phone
  split <;> rfl

/-- Operation `remove_phone` never changes the stored name. -/
theorem remove_phone_name (r : Record) (s : String) : (remove_phone r s).1.name = r.name := by
  unfold remove_phone
  split <;> rfl

/-- Operation `add_birthday` never changes the stored name. -/
theorem add_birthday_name (r : Record) (s : String) : (add_birthday r s).1.name = r.name := by
  unfold add_birthday
  split <;> rfl

/-- Operation `edit_phone` never changes the stored name. -/
theorem edit_phone_name (r : Record) (old new : String) :
    (edit_phone r old new).1.name = r.name := by
  unfold edit_phone
  rcases h : remove_phone r old with ⟨r₁, e⟩
  have hn : r₁.name = r.name := by
    have h' := remove_phone_name r old
    rw [h] at h'
    exact h'
  cases e
  · simpa [add_phone_name] using hn
  · simpa using hn

/-- An in-place record update keeps the key-matches-name invariant as
long as the update preserves the name. -/
theorem updBook_names (b : Book) (k : String) (f : Record → Record)
    (hf : ∀ r, (f r).name = r.name) (ih : ∀ p ∈ b, p.2.name = p.1) :
    ∀ p ∈ updBook b k f, p.2.name = p.1 := by
  intro p hp
  rcases List.mem_map.mp hp with ⟨q, hq, rfl⟩
  by_cases hqk : q.1 = k
  · simp [hqk, hf, ih q hq]
  · simp [hqk, ih q hq]

/-- The first component of `delete_record`. -/
theorem delete_record_fst (b : Book) (n : String) :
    (delete_record b n).1 =
      if b.any (fun p => p.1 == n) then b.filter (fun p => !(p.1 == n)) else b := by
  unfold delete_record
  split <;> rfl

/-- Lookup `book_find` unfolded one entry at a time. -/
theorem book_find_cons (x : String × Record) (l : Book) (n : String) :
    book_find (x :: l) n = if x.1 == n then some x.2 else book_find l n := by
  cases hx : (x.1 == n)
  · rw [book_find, List.find?_cons_of_neg _ (by simp [hx])]
    simp [hx, book_find]
  · rw [book_find, List.find?_cons_of_pos _ (by simp [hx])]
    simp [hx]

/-- Overwriting an existing key: the updated map yields the new record
under that key. -/
theorem find_after_overwrite (b : Book) (r : Record)
    (h : b.any (fun p => p.1 == r.name) = true) :
    book_find (b.map (fun p => if p.1 == r.name then (p.1, r) else p)) r.name = some r := by
  induction b with
  | nil => simp at h
  | cons q bs ih =>
    rw [List.map_cons]
    cases hq : (q.1 == r.name)
    · rw [if_neg (by simp [hq]), book_find_cons, if_neg (by simp [hq])]
      refine ih ?_
      rw [List.any_cons] at h
      simpa [hq] using h
    · rw [if_pos rfl, book_find_cons, if_pos hq]

/-- Overwriting an existing key leaves the key sequence unchanged. -/
theorem map_fst_overwrite (b : Book) (r : Record) :
    (b.map (fun p => if p.1 == r.name then (p.1, r) else p)).map Prod.fst = b.map Prod.fst := by
  induction b with
  | nil => rfl
  | cons q bs ih =>
    simp only [List.map_cons]
    cases hq : (q.1 == r.name)
    · rw [if_neg (by simp [hq]), ih]
    · rw [if_pos rfl, ih]

/-- C9: in every book state reachable from the empty book through the
core operations, each stored record's name equals its key; and
`add_record` with a colliding name overwrites that entry in place (last
write wins, keys unchanged). -/
theorem book_invariant_and_overwrite :
    (∀ b : Book, Reachable b → ∀ p ∈ b, p.2.name = p.1) ∧
    (∀ (b : Book) (r : Record), b.any (fun p => p.1 == r.name) = true →
      book_find (add_record b r) r.name = some r ∧
      (add_record b r).map Prod.fst = b.map Prod.fst) := by
  constructor
  · intro b hreach
    induction hreach with
    | empty => simp
    | add b r _ ih =>
      intro p hp
      unfold add_record at hp
      split at hp
      · rcases List.mem_map.mp hp with ⟨q, hq, rfl⟩
        by_cases hqr : q.1 = r.name
        · simp [hqr]
        · simp [hqr, ih q hq]
      · rcases List.mem_append.mp hp with hp₁ | hp₂
        · exact ih p hp₁
        · rcases List.mem_singleton.mp hp₂ with rfl
          rfl
    | del b n _ ih =>
      intro p hp
      rw [delete_record_fst] at hp
      split at hp
      · exact ih p (List.mem_filter.mp hp).1
      · exact ih p hp
    | addPh b k s _ ih => exact updBook_names b k _ (fun r => add_phone_name r s) ih
    | rmPh b k s _ ih => exact updBook_names b k _ (fun r => remove_phone_name r s) ih
    | edPh b k old new _ ih => exact updBook_names b k _ (fun r => edit_phone_name r old new) ih
    | setBd b k s _ ih => exact updBook_names b k _ (fun r => add_birthday_name r s) ih
  · intro b r hany
    constructor
    · unfold add_record
      rw [if_pos hany]
      exact find_after_overwrite b r hany
    · unfold add_record
      rw [if_pos hany]
      exact map_fst_overwrite b r

/-- Witness for `book_invariant_and_overwrite`: a concrete reachable
two-record book satisfies the invariant, and inserting a colliding record
overwrites it. -/
theorem book_invariant_and_overwrite_witness :
    (∀ p ∈ add_record (add_record [] ⟨"Mia", ["0123456789"], none⟩) ⟨"Ann", [], none⟩,
      p.2.name = p.1) ∧
    book_find (add_record [("Mia", ⟨"Mia", ["0123456789"], none⟩)] ⟨"Mia", [], none⟩) "Mia" =
      some ⟨"Mia", [], none⟩ :=
  ⟨book_invariant_and_overwrite.1 _
      (Reachable.add _ _ (Reachable.add _ _ Reachable.empty)),
    (book_invariant_and_overwrite.2 [("Mia", ⟨"Mia", ["0123456789"], none⟩)]
      ⟨"Mia", [], none⟩ (by decide)).1⟩

/-- The regex match of `^\d+$` holds exactly on a nonempty run of digits
optionally closed by one trailing newline. -/
theorem digitsMatch_iff (l : List Char) :
    digitsMatch l = true ↔
      ((l ≠ [] ∧ l.all isDig = true) ∨
        ∃ t, l = t ++ ['\n'] ∧ t.all isDig = true ∧ t ≠ []) := by
  rcases l.eq_nil_or_concat with rfl | ⟨t, c, rfl⟩
  · simp [digitsMatch]
  · rw [List.concat_eq_append]
    constructor
    · intro h
      simp only [digitsMatch, Bool.or_eq_true, Bool.and_eq_true, List.dropLast_concat,
        List.getLast?_concat, Nat.ble_eq, beq_iff_eq, Option.some.injEq] at h
      rcases h with ⟨_, hall⟩ | ⟨⟨hlen, hdrop⟩, hc⟩
      · exact Or.inl ⟨by simp, hall⟩
      · refine Or.inr ⟨t, by rw [hc], hdrop, ?_⟩
        intro h0
        rw [h0] at hlen
        simp at hlen
    · intro h
      simp only [digitsMatch, Bool.or_eq_true, Bool.and_eq_true, List.dropLast_concat,
        List.getLast?_concat, Nat.ble_eq, beq_iff_eq, Option.some.injEq]
      rcases h with ⟨_, hall⟩ | ⟨t', heq, hall, htne⟩
      · exact Or.inl ⟨by simp, hall⟩
      · rcases List.append_inj' heq rfl with ⟨rfl, hch⟩
        have hc : c = '\n' := by simpa using hch
        refine Or.inr ⟨⟨?_, hall⟩, hc⟩
        have hpos : 0 < t.length := List.length_pos.mpr htne
        simp only [List.length_append, List.length_cons, List.length_nil]
        omega

/-- C3 (amended): on ASCII input, `Phone` construction succeeds exactly
when the string has ten characters and either all ten are digits or the
first nine are digits and the tenth is a newline — the `$` anchor of the
validation regex also matches just before a trailing newline, so the
"all characters are digits" reading of the claim is too strict. -/
theorem phone_validation_characterization (s : String) :
    validate_number s = true ↔
      (s.data.length = 10 ∧
        (s.data.all isDig = true ∨
          ∃ t, s.data = t ++ ['\n'] ∧ t.all isDig = true ∧ t ≠ [])) := by
  unfold validate_number
  rw [Bool.and_eq_true]
  constructor
  · rintro ⟨hlen, hdm⟩
    have hlen' : s.data.length = 10 := by simpa using hlen
    rcases (digitsMatch_iff s.data).mp hdm with ⟨_, hall⟩ | hex
    · exact ⟨hlen', Or.inl hall⟩
    · exact ⟨hlen', Or.inr hex⟩
  · rintro ⟨hlen, h⟩
    refine ⟨by simpa using hlen, (digitsMatch_iff s.data).mpr ?_⟩
    rcases h with hall | hex
    · refine Or.inl ⟨?_, hall⟩
      intro h0
      rw [h0] at hlen
      simp at hlen
    · exact Or.inr hex

/-- Witness for `phone_validation_characterization`: a ten-digit string
is accepted. -/
theorem phone_validation_characterization_witness :
    validate_number "0123456789" = true :=
  (phone_validation_characterization "0123456789").mpr ⟨by decide, Or.inl (by decide)⟩

/-- C3 counterexample: nine digits followed by a newline form a ten-
character string that is not all digits yet passes phone validation. -/
theorem phone_trailing_newline_accepted :
    validate_number "123456789\n" = true ∧
    ("123456789\n".data.all isDig = false) ∧ "123456789\n".data.length = 10 := by
  decide

/-- The loop of the birthday query agrees with the filter-map description
whenever no record's birthday dies in `date.replace` for today's year and
`today + timedelta(days = 7)` stays inside the calendar. -/
theorem upcomingAux_eq (today lim : Date) (rs : List Record)
    (h : rs.all (birthdayOk today) = true) :
    upcomingAux today (some lim) rs =
      some (rs.filterMap (upcomingEntry today (some lim))) := by
  induction rs with
  | nil => rfl
  | cons r rs ih =>
    rw [List.all_cons, Bool.and_eq_true] at h
    obtain ⟨hr, hrs⟩ := h
    have ih' := ih hrs
    cases hb : r.birthday with
    | none =>
      have e1 : upcomingAux today (some lim) (r :: rs) = upcomingAux today (some lim) rs := by
        simp [upcomingAux, hb]
      have e2 : upcomingEntry today (some lim) r = none := by
        simp [upcomingEntry, hb]
      rw [e1, ih', List.filterMap_cons, e2]
    | some bd =>
      have hry : (replaceYear bd today.year).isSome = true := by
        unfold birthdayOk at hr
        rw [hb] at hr
        exact hr
      rcases hnb : replaceYear bd today.year with _ | nb
      · rw [hnb] at hry
        simp at hry
      · cases hT : dateLE today nb
        · have e1 : upcomingAux today (some lim) (r :: rs) =
              upcomingAux today (some lim) rs := by
            simp [upcomingAux, hb, hnb, hT]
          have e2 : upcomingEntry today (some lim) r = none := by
            simp [upcomingEntry, hb, hnb, hT]
          rw [e1, ih', List.filterMap_cons, e2]
        · cases hw : dateLE nb lim
          · have e1 : upcomingAux today (some lim) (r :: rs) =
                upcomingAux today (some lim) rs := by
              simp [upcomingAux, hb, hnb, hT, hw]
            have e2 : upcomingEntry today (some lim) r = none := by
              simp [upcomingEntry, hb, hnb, hT, hw]
            rw [e1, ih', List.filterMap_cons, e2]
          · have e1 : upcomingAux today (some lim) (r :: rs) =
                (upcomingAux today (some lim) rs).map
                  (fun l => (r.name, fmtDate nb) :: l) := by
              simp [upcomingAux, hb, hnb, hT, hw]
            have e2 : upcomingEntry today (some lim) r = some (r.name, fmtDate nb) := by
              simp [upcomingEntry, hb, hnb, hT, hw]
            rw [e1, ih', List.filterMap_cons, e2]
            rfl

/-- C1 (amended): whenever every stored birthday's month/day exists in
today's year (no Feb 29 birthday with a non-leap `today.year`) and
`today + timedelta(days = 7)` stays within the calendar (today no later
than 9999-12-24), the query returns — in the book's insertion order —
exactly the (name, candidate) pairs of records with a set birthday whose
candidate date, the birthday's month/day in today's year, lies in the
inclusive window from today to today plus seven days; there is no year
rollover, so candidates before today are excluded.  (Outside those
provisos the call can raise instead of returning: `ValueError` from
`date.replace` on a dead Feb 29, or `OverflowError` from the window's
right endpoint once some candidate is on or after today.) -/
theorem upcoming_birthdays_window (b : Book) (today : Date)
    (h : (b.map Prod.snd).all (birthdayOk today) = true)
    (hlim : (addDaysChecked today 7).isSome = true) :
    get_upcoming_birthdays b today = some (upcomingSpec b today) := by
  rcases hlc : addDaysChecked today 7 with _ | lim
  · rw [hlc] at hlim
    simp at hlim
  · unfold get_upcoming_birthdays upcomingSpec
    rw [hlc]
    exact upcomingAux_eq today lim (b.map Prod.snd) h

/-- Witness for `upcoming_birthdays_window`: a book with a birthday
inside the window and one already past is reported correctly, in order,
with the past candidate excluded (no rollover). -/
theorem upcoming_birthdays_window_witness :
    get_upcoming_birthdays
      [("Mia", ⟨"Mia", [], some ⟨1990, 12, 25⟩⟩), ("Ann", ⟨"Ann", [], some ⟨1990, 1, 1⟩⟩)]
      ⟨2023, 12, 20⟩ = some [("Mia", "25.12.2023")] := by
  have h := upcoming_birthdays_window
    [("Mia", ⟨"Mia", [], some ⟨1990, 12, 25⟩⟩), ("Ann", ⟨"Ann", [], some ⟨1990, 1, 1⟩⟩)]
    ⟨2023, 12, 20⟩ (by decide) (by decide)
  rw [h]
  decide

/-- C1 counterexample: the query can raise instead of returning a list.
A book holding the (constructible) birthday `29.02.2000` raises
`ValueError` from `date.replace` for a non-leap today; and a book holding
the birthday `30.12.1990` with today = 28.12.9999 passes the left window
comparison and then raises `OverflowError` computing today plus seven
days past the calendar's 9999-12-31 maximum.  Both return no list at all,
against the claim that the qualifying pairs are returned for every book
and every today. -/
theorem upcoming_birthdays_feb29_raises :
    parseBirthday "29.02.2000" = some ⟨2000, 2, 29⟩ ∧
    get_upcoming_birthdays [("Mia", ⟨"Mia", [], some ⟨2000, 2, 29⟩⟩)] ⟨2001, 6, 15⟩ = none ∧
    parseBirthday "30.12.1990" = some ⟨1990, 12, 30⟩ ∧
    get_upcoming_birthdays [("Mia", ⟨"Mia", [], some ⟨1990, 12, 30⟩⟩)] ⟨9999, 12, 28⟩ =
      none := by
  decide

/-- Characterisation of `isDig` as a code-point range. -/
theorem isDig_iff (c : Char) : isDig c = true ↔ 48 ≤ c.toNat ∧ c.toNat ≤ 57 := by
  simp [isDig, Bool.and_eq_true, Nat.ble_eq]

/-- A digit character is neither a dot nor a space. -/
theorem isDig_ne_dot_space (c : Char) (h : isDig c = true) : c ≠ '.' ∧ c ≠ ' ' := by
  rw [isDig_iff] at h
  constructor
  · intro hc
    rw [hc] at h
    exact absurd h (by decide)
  · intro hc
    rw [hc] at h
    exact absurd h (by decide)

/-- A digit character is at most 9 in value. -/
theorem isDig_val_le (c : Char) (h : isDig c = true) : charVal c ≤ 9 := by
  rw [isDig_iff] at h
  unfold charVal
  omega

/-- A nonzero digit character has value between 1 and 9. -/
theorem isDig19_val (c : Char) (h : isDig19 c = true) :
    1 ≤ charVal c ∧ charVal c ≤ 9 ∧ isDig c = true := by
  unfold isDig19 at h
  rw [Bool.and_eq_true] at h
  obtain ⟨hd, hz⟩ := h
  have hb := (isDig_iff c).mp hd
  have hne : c.toNat ≠ 48 := by
    intro h48
    have hc : c = '0' := by
      conv_lhs => rw [← Char.ofNat_toNat c]
      rw [h48]
    rw [hc] at hz
    exact absurd hz (by decide)
  unfold charVal
  refine ⟨by omega, by omega, hd⟩

/-- Formatting inverts the numeric value of a digit character. -/
theorem digitChar_val (c : Char) (h : isDig c = true) : Nat.digitChar (charVal c) = c := by
  rw [isDig_iff] at h
  obtain ⟨k, hk9, hkeq⟩ : ∃ k, k ≤ 9 ∧ c.toNat = 48 + k := ⟨c.toNat - 48, by omega, by omega⟩
  conv_rhs => rw [← Char.ofNat_toNat c]
  unfold charVal
  rw [hkeq]
  have h48 : 48 + k - 48 = k := by omega
  rw [h48]
  interval_cases k <;> decide

/-- Splitting `breakDot` cuts exactly at the first dot. -/
theorem breakDot_iff (l : List Char) : ∀ (a b : List Char),
    breakDot l = some (a, b) ↔ (l = a ++ '.' :: b ∧ '.' ∉ a) := by
  induction l with
  | nil =>
    intro a b
    constructor
    · intro h
      simp [breakDot] at h
    · rintro ⟨heq, _⟩
      simp at heq
  | cons c cs ih =>
    intro a b
    by_cases hc : c = '.'
    · subst hc
      rw [show breakDot ('.' :: cs) = some ([], cs) from by simp [breakDot]]
      constructor
      · intro h
        obtain ⟨ha, hb⟩ := Prod.mk.inj (Option.some.inj h)
        subst ha
        subst hb
        exact ⟨rfl, by simp⟩
      · rintro ⟨heq, hnot⟩
        cases a with
        | nil =>
          simp only [List.nil_append] at heq
          obtain ⟨_, rfl⟩ := List.cons.inj heq
          rfl
        | cons x xs =>
          simp only [List.cons_append] at heq
          obtain ⟨hx, _⟩ := List.cons.inj heq
          subst hx
          exact absurd (List.mem_cons_self _ _) hnot
    · rw [show breakDot (c :: cs) = (breakDot cs).map (fun p => (c :: p.1, p.2)) from by
        simp [breakDot, hc]]
      constructor
      · intro h
        obtain ⟨⟨p, q⟩, hpq, heq⟩ := Option.map_eq_some'.mp h
        obtain ⟨rfl, rfl⟩ := Prod.mk.inj heq
        obtain ⟨hl, hnp⟩ := (ih p q).mp hpq
        refine ⟨by rw [hl]; rfl, ?_⟩
        intro hmem
        rcases List.mem_cons.mp hmem with h1 | h2
        · exact hc h1.symm
        · exact hnp h2
      · rintro ⟨heq, hnot⟩
        cases a with
        | nil =>
          simp only [List.nil_append] at heq
          exact absurd (List.cons.inj heq).1 hc
        | cons x xs =>
          simp only [List.cons_append] at heq
          obtain ⟨hx, hcs⟩ := List.cons.inj heq
          subst hx
          have hnotxs : '.' ∉ xs := fun hm => hnot (List.mem_cons_of_mem _ hm)
          rw [(ih xs b).mpr ⟨hcs, hnotxs⟩]
          rfl

/-- The shapes a field can have when the `%d` parser succeeds. -/
theorem parseDay_shapes (p : List Char) (d : Nat) (h : parseDay p = some d) :
    (∃ c, p = [c] ∧ isDig19 c = true ∧ d = charVal c) ∨
    (∃ c₁ c₂, p = [c₁, c₂] ∧ c₁ ≠ ' ' ∧ isDig c₁ = true ∧ isDig c₂ = true ∧
      d = 10 * charVal c₁ + charVal c₂ ∧ 1 ≤ d ∧ d ≤ 31) ∨
    (∃ c, p = [' ', c] ∧ isDig19 c = true ∧ d = charVal c) := by
  cases p with
  | nil => simp [parseDay] at h
  | cons c₁ rest =>
    cases rest with
    | nil =>
      cases hdig : isDig19 c₁
      · simp [parseDay, hdig] at h
      · refine Or.inl ⟨c₁, rfl, hdig, ?_⟩
        simp [parseDay, hdig] at h
        exact h.symm
    | cons c₂ rest₂ =>
      cases rest₂ with
      | nil =>
        by_cases hsp : c₁ = ' '
        · subst hsp
          cases hdig : isDig19 c₂
          · simp [parseDay, hdig] at h
          · refine Or.inr (Or.inr ⟨c₂, rfl, hdig, ?_⟩)
            simp [parseDay, hdig] at h
            exact h.symm
        · cases hcond : (isDig c₁ && isDig c₂ &&
              Nat.ble 1 (10 * charVal c₁ + charVal c₂) &&
              Nat.ble (10 * charVal c₁ + charVal c₂) 31)
          · simp [parseDay, hsp, hcond] at h
          · have hsplit := hcond
            rw [Bool.and_eq_true, Bool.and_eq_true, Bool.and_eq_true] at hsplit
            obtain ⟨⟨⟨h1, h2⟩, h3⟩, h4⟩ := hsplit
            have hd : d = 10 * charVal c₁ + charVal c₂ := by
              simp [parseDay, hsp, hcond] at h
              exact h.symm
            refine Or.inr (Or.inl ⟨c₁, c₂, rfl, hsp, h1, h2, hd, ?_, ?_⟩)
            · rw [hd]
              exact Nat.le_of_ble_eq_true h3
            · rw [hd]
              exact Nat.le_of_ble_eq_true h4
      | cons _ _ => simp [parseDay] at h

/-- The shapes a field can have when the `%m` parser succeeds. -/
theorem parseMonth_shapes (p : List Char) (m : Nat) (h : parseMonth p = some m) :
    (∃ c, p = [c] ∧ isDig19 c = true ∧ m = charVal c) ∨
    (∃ c₁ c₂, p = [c₁, c₂] ∧ isDig c₁ = true ∧ isDig c₂ = true ∧
      m = 10 * charVal c₁ + charVal c₂ ∧ 1 ≤ m ∧ m ≤ 12) := by
  cases p with
  | nil => simp [parseMonth] at h
  | cons c₁ rest =>
    cases rest with
    | nil =>
      cases hdig : isDig19 c₁
      · simp [parseMonth, hdig] at h
      · refine Or.inl ⟨c₁, rfl, hdig, ?_⟩
        simp [parseMonth, hdig] at h
        exact h.symm
    | cons c₂ rest₂ =>
      cases rest₂ with
      | nil =>
        cases hcond : (isDig c₁ && isDig c₂ &&
            Nat.ble 1 (10 * charVal c₁ + charVal c₂) &&
            Nat.ble (10 * charVal c₁ + charVal c₂) 12)
        · simp [parseMonth, hcond] at h
        · have hsplit := hcond
          rw [Bool.and_eq_true, Bool.and_eq_true, Bool.and_eq_true] at hsplit
          obtain ⟨⟨⟨h1, h2⟩, h3⟩, h4⟩ := hsplit
          have hm : m = 10 * charVal c₁ + charVal c₂ := by
            simp [parseMonth, hcond] at h
            exact h.symm
          refine Or.inr ⟨c₁, c₂, rfl, h1, h2, hm, ?_, ?_⟩
          · rw [hm]
            exact Nat.le_of_ble_eq_true h3
          · rw [hm]
            exact Nat.le_of_ble_eq_true h4
      | cons _ _ => simp [parseMonth] at h

/-- The shape of a field when the `%Y` parser succeeds. -/
theorem parseYear_shape (p : List Char) (y : Nat) (h : parseYear p = some y) :
    ∃ a b c d, p = [a, b, c, d] ∧
      isDig a = true ∧ isDig b = true ∧ isDig c = true ∧ isDig d = true ∧
      y = 1000 * charVal a + 100 * charVal b + 10 * charVal c + charVal d := by
  match p with
  | [] => simp [parseYear] at h
  | [_] => simp [parseYear] at h
  | [_, _] => simp [parseYear] at h
  | [_, _, _] => simp [parseYear] at h
  | a :: b :: c :: d :: _ :: _ => simp [parseYear] at h
  | [a, b, c, d] =>
    cases hcond : (isDig a && isDig b && isDig c && isDig d)
    · simp [parseYear, hcond] at h
    · have hsplit := hcond
      rw [Bool.and_eq_true, Bool.and_eq_true, Bool.and_eq_true] at hsplit
      obtain ⟨⟨⟨h1, h2⟩, h3⟩, h4⟩ := hsplit
      have hy : y = 1000 * charVal a + 100 * charVal b + 10 * charVal c + charVal d := by
        simp [parseYear, hcond] at h
        exact h.symm
      exact ⟨a, b, c, d, rfl, h1, h2, h3, h4, hy⟩

/-- A field accepted by the `%d` parser contains no dot. -/
theorem parseDay_no_dot (p : List Char) (d : Nat) (h : parseDay p = some d) : '.' ∉ p := by
  rcases parseDay_shapes p d h with ⟨c, rfl, hdig, _⟩ | ⟨c₁, c₂, rfl, _, h1, h2, _⟩ |
    ⟨c, rfl, hdig, _⟩
  · intro hm
    rcases List.mem_singleton.mp hm with rfl
    exact absurd hdig (by decide)
  · intro hm
    rcases List.mem_cons.mp hm with he | hm2
    · exact (isDig_ne_dot_space c₁ h1).1 he.symm
    · rcases List.mem_singleton.mp hm2 with rfl
      exact absurd h2 (by decide)
  · intro hm
    rcases List.mem_cons.mp hm with he | hm2
    · exact absurd he.symm (by decide)
    · rcases List.mem_singleton.mp hm2 with rfl
      exact absurd hdig (by decide)

/-- A field accepted by the `%m` parser contains no dot. -/
theorem parseMonth_no_dot (p : List Char) (m : Nat) (h : parseMonth p = some m) : '.' ∉ p := by
  rcases parseMonth_shapes p m h with ⟨c, rfl, hdig, _⟩ | ⟨c₁, c₂, rfl, h1, h2, _⟩
  · intro hm
    rcases List.mem_singleton.mp hm with rfl
    exact absurd hdig (by decide)
  · intro hm
    rcases List.mem_cons.mp hm with he | hm2
    · exact (isDig_ne_dot_space c₁ h1).1 he.symm
    · rcases List.mem_singleton.mp hm2 with rfl
      exact absurd h2 (by decide)

/-- Bounds delivered by the `%d` parser. -/
theorem parseDay_bounds (p : List Char) (d : Nat) (h : parseDay p = some d) :
    1 ≤ d ∧ d ≤ 31 := by
  rcases parseDay_shapes p d h with ⟨c, _, hdig, rfl⟩ | ⟨_, _, _, _, _, _, _, hlo, hhi⟩ |
    ⟨c, _, hdig, rfl⟩
  · obtain ⟨hl, hh, _⟩ := isDig19_val c hdig
    exact ⟨hl, by omega⟩
  · exact ⟨hlo, hhi⟩
  · obtain ⟨hl, hh, _⟩ := isDig19_val c hdig
    exact ⟨hl, by omega⟩

/-- Bounds delivered by the `%m` parser. -/
theorem parseMonth_bounds (p : List Char) (m : Nat) (h : parseMonth p = some m) :
    1 ≤ m ∧ m ≤ 12 := by
  rcases parseMonth_shapes p m h with ⟨c, _, hdig, rfl⟩ | ⟨_, _, _, _, _, _, hlo, hhi⟩
  · obtain ⟨hl, hh, _⟩ := isDig19_val c hdig
    exact ⟨hl, by omega⟩
  · exact ⟨hlo, hhi⟩

/-- Bound delivered by the `%Y` parser. -/
theorem parseYear_bound (p : List Char) (y : Nat) (h : parseYear p = some y) : y ≤ 9999 := by
  obtain ⟨a, b, c, d, _, h1, h2, h3, h4, rfl⟩ := parseYear_shape p y h
  have := isDig_val_le a h1
  have := isDig_val_le b h2
  have := isDig_val_le c h3
  have := isDig_val_le d h4
  omega

/-- C4 (amended): `Birthday` construction succeeds exactly on strings
that split at two dots into a day field accepted by strptime's `%d` (one
digit 1-9, two digits 01-31, or a space and a digit 1-9), a month field
accepted by `%m` (one digit 1-9 or two digits 01-12), a year field of
exactly four digits, such that the values form a valid calendar date
(year at least 1, day within the month, leap years respected); every
successfully parsed date is calendar-valid, so month 13, day 32 and
invalid day/month combinations are rejected — but one-digit day/month
forms are accepted, unlike the claim's strict two-digit reading. -/
theorem birthday_parse_characterization :
    (∀ l : List Char, (parseBirthdayChars l).isSome = true ↔
      ∃ dp mp yp d m y, l = dp ++ '.' :: (mp ++ '.' :: yp) ∧
        parseDay dp = some d ∧ parseMonth mp = some m ∧ parseYear yp = some y ∧
        1 ≤ y ∧ d ≤ daysInMonth y m) ∧
    (∀ (l : List Char) (dt : Date), parseBirthdayChars l = some dt → validDate dt = true) := by
  have main : ∀ (l : List Char) (dt : Date), parseBirthdayChars l = some dt →
      ∃ dp mp yp d m y, l = dp ++ '.' :: (mp ++ '.' :: yp) ∧
        parseDay dp = some d ∧ parseMonth mp = some m ∧ parseYear yp = some y ∧
        1 ≤ y ∧ d ≤ daysInMonth y m ∧ dt = ⟨y, m, d⟩ := by
    intro l dt h
    rcases h₁ : breakDot l with _ | ⟨dp, r₁⟩
    · simp [parseBirthdayChars, h₁] at h
    rcases h₂ : breakDot r₁ with _ | ⟨mp, yp⟩
    · simp [parseBirthdayChars, h₁, h₂] at h
    rcases h₃ : parseDay dp with _ | d
    · simp [parseBirthdayChars, h₁, h₂, h₃] at h
    rcases h₄ : parseMonth mp with _ | m
    · simp [parseBirthdayChars, h₁, h₂, h₃, h₄] at h
    rcases h₅ : parseYear yp with _ | y
    · simp [parseBirthdayChars, h₁, h₂, h₃, h₄, h₅] at h
    cases h₆ : (Nat.ble 1 y && Nat.ble d (daysInMonth y m))
    · simp [parseBirthdayChars, h₁, h₂, h₃, h₄, h₅, h₆] at h
    · have hdt : dt = ⟨y, m, d⟩ := by
        simp [parseBirthdayChars, h₁, h₂, h₃, h₄, h₅, h₆] at h
        exact h.symm
      have hsplit := h₆
      rw [Bool.and_eq_true] at hsplit
      obtain ⟨hy1, hdm⟩ := hsplit
      obtain ⟨hl1, _⟩ := (breakDot_iff l dp r₁).mp h₁
      obtain ⟨hl2, _⟩ := (breakDot_iff r₁ mp yp).mp h₂
      exact ⟨dp, mp, yp, d, m, y, by rw [hl1, hl2], h₃, h₄, h₅,
        Nat.le_of_ble_eq_true hy1, Nat.le_of_ble_eq_true hdm, hdt⟩
  constructor
  · intro l
    constructor
    · intro h
      rcases Option.isSome_iff_exists.mp h with ⟨dt, hdt⟩
      obtain ⟨dp, mp, yp, d, m, y, hl, h₃, h₄, h₅, hy1, hdm, _⟩ := main l dt hdt
      exact ⟨dp, mp, yp, d, m, y, hl, h₃, h₄, h₅, hy1, hdm⟩
    · rintro ⟨dp, mp, yp, d, m, y, rfl, h₃, h₄, h₅, hy1, hdm⟩
      have hb1 : breakDot (dp ++ '.' :: (mp ++ '.' :: yp)) = some (dp, mp ++ '.' :: yp) :=
        (breakDot_iff _ dp _).mpr ⟨rfl, parseDay_no_dot dp d h₃⟩
      have hb2 : breakDot (mp ++ '.' :: yp) = some (mp, yp) :=
        (breakDot_iff _ mp yp).mpr ⟨rfl, parseMonth_no_dot mp m h₄⟩
      have c₁ : Nat.ble 1 y = true := by simpa [Nat.ble_eq] using hy1
      have c₂ : Nat.ble d (daysInMonth y m) = true := by simpa [Nat.ble_eq] using hdm
      simp [parseBirthdayChars, hb1, hb2, h₃, h₄, h₅, c₁, c₂]
  · intro l dt h
    obtain ⟨dp, mp, yp, d, m, y, _, h₃, h₄, h₅, hy1, hdm, rfl⟩ := main l dt h
    obtain ⟨hd1, _⟩ := parseDay_bounds dp d h₃
    obtain ⟨hm1, hm2⟩ := parseMonth_bounds mp m h₄
    have hy2 := parseYear_bound yp y h₅
    simp only [validDate, Bool.and_eq_true, Nat.ble_eq]
    exact ⟨⟨⟨⟨⟨hy1, hy2⟩, hm1⟩, hm2⟩, hd1⟩, hdm⟩

/-- Witness for `birthday_parse_characterization`: the leap-day string
`29.02.2024` is accepted and the parsed date is calendar-valid. -/
theorem birthday_parse_characterization_witness :
    (parseBirthdayChars "29.02.2024".data).isSome = true ∧ validDate ⟨2024, 2, 29⟩ = true :=
  ⟨(birthday_parse_characterization.1 _).mpr
      ⟨['2', '9'], ['0', '2'], ['2', '0', '2', '4'], 29, 2, 2024,
        by decide, by decide, by decide, by decide, by decide, by decide⟩,
    birthday_parse_characterization.2 "29.02.2024".data ⟨2024, 2, 29⟩ (by decide)⟩

/-- C4 counterexample: `1.1.1990` does not match the strict two-digit
`DD.MM.YYYY` pattern (it is only eight characters long), yet `Birthday`
construction succeeds on it. -/
theorem birthday_single_digit_accepted :
    (parseBirthdayChars "1.1.1990".data).isSome = true ∧
    "1.1.1990".data.length ≠ 10 := by
  decide

/-- A pair of digit characters contains no dot. -/
theorem two_digits_no_dot (a b : Char) (ha : isDig a = true) (hb : isDig b = true) :
    '.' ∉ [a, b] := by
  intro hm
  rcases List.mem_cons.mp hm with he | hm2
  · exact (isDig_ne_dot_space a ha).1 he.symm
  · rcases List.mem_singleton.mp hm2 with rfl
    exact absurd hb (by decide)

/-- C5 (amended): for input in the strict `DD.MM.YYYY` shape — two digit
characters, a dot, two digit characters, a dot, four digit characters —
whose year field does not start with `0` (so the year is at least 1000),
a successful `Birthday` construction formats back to exactly the original
characters.  (Inputs in the laxer one-digit forms also parse but format
back zero-padded, and a four-digit year below 1000 such as `0090` formats
back unpadded as `90`, so the round trip holds only under both
restrictions.) -/
theorem birthday_roundtrip_strict (c₁ c₂ c₃ c₄ c₅ c₆ c₇ c₈ : Char) (dt : Date)
    (h₁ : isDig c₁ = true) (h₂ : isDig c₂ = true) (h₃ : isDig c₃ = true)
    (h₄ : isDig c₄ = true) (h₅ : isDig19 c₅ = true) (h₆ : isDig c₆ = true)
    (h₇ : isDig c₇ = true) (h₈ : isDig c₈ = true)
    (hp : parseBirthdayChars [c₁, c₂, '.', c₃, c₄, '.', c₅, c₆, c₇, c₈] = some dt) :
    fmtDateChars dt = [c₁, c₂, '.', c₃, c₄, '.', c₅, c₆, c₇, c₈] := by
  obtain ⟨hlo₅, hhi₅, hd₅⟩ := isDig19_val c₅ h₅
  have hb1 : breakDot [c₁, c₂, '.', c₃, c₄, '.', c₅, c₆, c₇, c₈] =
      some ([c₁, c₂], [c₃, c₄, '.', c₅, c₆, c₇, c₈]) :=
    (breakDot_iff _ _ _).mpr ⟨rfl, two_digits_no_dot c₁ c₂ h₁ h₂⟩
  have hb2 : breakDot [c₃, c₄, '.', c₅, c₆, c₇, c₈] = some ([c₃, c₄], [c₅, c₆, c₇, c₈]) :=
    (breakDot_iff _ _ _).mpr ⟨rfl, two_digits_no_dot c₃ c₄ h₃ h₄⟩
  have hs1 : ¬ c₁ = ' ' := (isDig_ne_dot_space c₁ h₁).2
  have hpy : parseYear [c₅, c₆, c₇, c₈] =
      some (1000 * charVal c₅ + 100 * charVal c₆ + 10 * charVal c₇ + charVal c₈) := by
    simp [parseYear, hd₅, h₆, h₇, h₈]
  cases hdc : (isDig c₁ && isDig c₂ &&
      Nat.ble 1 (10 * charVal c₁ + charVal c₂) &&
      Nat.ble (10 * charVal c₁ + charVal c₂) 31)
  · have hpd : parseDay [c₁, c₂] = none := by simp [parseDay, hs1, hdc]
    simp [parseBirthdayChars, hb1, hb2, hpd] at hp
  have hpd : parseDay [c₁, c₂] = some (10 * charVal c₁ + charVal c₂) := by
    simp [parseDay, hs1, hdc]
  cases hmc : (isDig c₃ && isDig c₄ &&
      Nat.ble 1 (10 * charVal c₃ + charVal c₄) &&
      Nat.ble (10 * charVal c₃ + charVal c₄) 12)
  · have hpm : parseMonth [c₃, c₄] = none := by simp [parseMonth, hmc]
    simp [parseBirthdayChars, hb1, hb2, hpd, hpm] at hp
  have hpm : parseMonth [c₃, c₄] = some (10 * charVal c₃ + charVal c₄) := by
    simp [parseMonth, hmc]
  cases hfin : (Nat.ble 1 (1000 * charVal c₅ + 100 * charVal c₆ + 10 * charVal c₇ + charVal c₈) &&
      Nat.ble (10 * charVal c₁ + charVal c₂)
        (daysInMonth (1000 * charVal c₅ + 100 * charVal c₆ + 10 * charVal c₇ + charVal c₈)
          (10 * charVal c₃ + charVal c₄)))
  · simp [parseBirthdayChars, hb1, hb2, hpd, hpm, hpy, hfin] at hp
  have hdt : dt = ⟨1000 * charVal c₅ + 100 * charVal c₆ + 10 * charVal c₇ + charVal c₈,
      10 * charVal c₃ + charVal c₄, 10 * charVal c₁ + charVal c₂⟩ := by
    simp [parseBirthdayChars, hb1, hb2, hpd, hpm, hpy, hfin] at hp
    exact hp.symm
  subst hdt
  have v₁ := isDig_val_le c₁ h₁
  have v₂ := isDig_val_le c₂ h₂
  have v₃ := isDig_val_le c₃ h₃
  have v₄ := isDig_val_le c₄ h₄
  have v₅ := isDig_val_le c₅ hd₅
  have v₆ := isDig_val_le c₆ h₆
  have v₇ := isDig_val_le c₇ h₇
  have v₈ := isDig_val_le c₈ h₈
  have ed1 : (10 * charVal c₁ + charVal c₂) / 10 % 10 = charVal c₁ := by omega
  have ed2 : (10 * charVal c₁ + charVal c₂) % 10 = charVal c₂ := by omega
  have em1 : (10 * charVal c₃ + charVal c₄) / 10 % 10 = charVal c₃ := by omega
  have em2 : (10 * charVal c₃ + charVal c₄) % 10 = charVal c₄ := by omega
  have ey1 : (1000 * charVal c₅ + 100 * charVal c₆ + 10 * charVal c₇ + charVal c₈) / 1000 % 10 =
      charVal c₅ := by omega
  have ey2 : (1000 * charVal c₅ + 100 * charVal c₆ + 10 * charVal c₇ + charVal c₈) / 100 % 10 =
      charVal c₆ := by omega
  have ey3 : (1000 * charVal c₅ + 100 * charVal c₆ + 10 * charVal c₇ + charVal c₈) / 10 % 10 =
      charVal c₇ := by omega
  have ey4 : (1000 * charVal c₅ + 100 * charVal c₆ + 10 * charVal c₇ + charVal c₈) % 10 =
      charVal c₈ := by omega
  have efy : fmtYear (1000 * charVal c₅ + 100 * charVal c₆ + 10 * charVal c₇ + charVal c₈) =
      [Nat.digitChar
        ((1000 * charVal c₅ + 100 * charVal c₆ + 10 * charVal c₇ + charVal c₈) / 1000 % 10),
       Nat.digitChar
        ((1000 * charVal c₅ + 100 * charVal c₆ + 10 * charVal c₇ + charVal c₈) / 100 % 10),
       Nat.digitChar
        ((1000 * charVal c₅ + 100 * charVal c₆ + 10 * charVal c₇ + charVal c₈) / 10 % 10),
       Nat.digitChar
        ((1000 * charVal c₅ + 100 * charVal c₆ + 10 * charVal c₇ + charVal c₈) % 10)] := by
    unfold fmtYear
    rw [if_neg (by omega), if_neg (by omega), if_neg (by omega)]
  show pad2 (10 * charVal c₁ + charVal c₂) ++ '.' ::
      (pad2 (10 * charVal c₃ + charVal c₄) ++ '.' ::
        fmtYear (1000 * charVal c₅ + 100 * charVal c₆ + 10 * charVal c₇ + charVal c₈)) = _
  unfold pad2
  rw [efy, ed1, ed2, em1, em2, ey1, ey2, ey3, ey4,
    digitChar_val c₁ h₁, digitChar_val c₂ h₂, digitChar_val c₃ h₃, digitChar_val c₄ h₄,
    digitChar_val c₅ hd₅, digitChar_val c₆ h₆, digitChar_val c₇ h₇, digitChar_val c₈ h₈]
  rfl

/-- Witness for `birthday_roundtrip_strict`: `25.12.1990` parses and
formats back to itself. -/
theorem birthday_roundtrip_strict_witness :
    parseBirthdayChars ['2', '5', '.', '1', '2', '.', '1', '9', '9', '0'] =
      some ⟨1990, 12, 25⟩ ∧
    fmtDateChars ⟨1990, 12, 25⟩ = ['2', '5', '.', '1', '2', '.', '1', '9', '9', '0'] :=
  ⟨by decide,
    birthday_roundtrip_strict '2' '5' '1' '2' '1' '9' '9' '0' ⟨1990, 12, 25⟩
      (by decide) (by decide) (by decide) (by decide) (by decide) (by decide)
      (by decide) (by decide) (by decide)⟩

/-- C5 counterexample: the round trip fails off the strict shape in two
ways.  `1.1.1990` is accepted by `Birthday` construction but formats back
zero-padded as `01.01.1990`; and the strict-shape `01.01.0090` is
accepted but formats back as `01.01.90`, since platform strftime does not
zero-pad years below 1000. -/
theorem birthday_roundtrip_fails_short_form :
    parseBirthdayChars "1.1.1990".data = some ⟨1990, 1, 1⟩ ∧
    fmtDateChars ⟨1990, 1, 1⟩ ≠ "1.1.1990".data ∧
    fmtDateChars ⟨1990, 1, 1⟩ = "01.01.1990".data ∧
    parseBirthdayChars "01.01.0090".data = some ⟨90, 1, 1⟩ ∧
    fmtDateChars ⟨90, 1, 1⟩ ≠ "01.01.0090".data ∧
    fmtDateChars ⟨90, 1, 1⟩ = "01.01.90".data := by
  decide

end Hw
